import Mathlib

/-
Shallow embedding of the resumable chunked upload engine of
react-native-nitro-cloud-uploader.  The iOS implementation lives in
ios/NitroCloudUploader.swift and the Android implementation in
android/src/main/java/com/margelo/nitro/nitroclouduploader/.  Where the two
platforms differ, both are embedded under ios- and android-prefixed names.
All machine integers (Int64/Long) are modelled as Nat/Int; overflow is not
reachable for the file sizes representable on either platform.
-/

/-- MIN_CHUNK_SIZE = 5 MiB, the S3 multipart floor used by both platforms
(UploadSession.minimumChunkSize on iOS, MIN_CHUNK_SIZE on Android). -/
def minChunkSize : Nat := 5 * 1024 * 1024

/-- MAX_RETRIES = 3 (Android NitroCloudUploader companion object). -/
def maxRetries : Nat := 3

/-- Ceiling division on naturals, modelling the Swift expression
Int64(ceil(Double(fileSize) / Double(uploadUrls.count))) in
UploadSession.init; the Double arithmetic is modelled as exact rational
division followed by ceiling, which agrees with it for all file sizes
below 2^53. -/
def ceilDiv (a b : Nat) : Nat := (a + b - 1) / b

/-- iOS UploadSession.init: chunkSize = max(calculatedChunkSize, 5 MiB)
where calculatedChunkSize = ceil(fileSize / uploadUrls.count). -/
def iosChunkSize (totalBytes urlCount : Nat) : Nat :=
  max (ceilDiv totalBytes urlCount) minChunkSize

/-- iOS UploadSession.init: requiredMinimumSize = (uploadUrls.count - 1) * 5 MiB. -/
def iosRequiredMinimumSize (urlCount : Nat) : Nat := (urlCount - 1) * minChunkSize

/-- iOS UploadSession.init throws when fileSize < requiredMinimumSize, so this
is true exactly when the session is actually created and a plan computed. -/
def iosValidSize (totalBytes urlCount : Nat) : Bool :=
  decide (iosRequiredMinimumSize urlCount ≤ totalBytes)

/-- One chunk's byte range; offset and size are Int64 in the Swift source,
so they are modelled as signed integers. -/
structure PartRange where
  offset : Int
  size : Int

/-- iOS UploadSession.uploadChunk(at: index): offset = index * chunkSize and
size = min(chunkSize, totalBytes - offset), both as Int64. -/
def iosPart (totalBytes urlCount i : Nat) : PartRange :=
  { offset := (i : Int) * (iosChunkSize totalBytes urlCount : Int)
  , size := min ((iosChunkSize totalBytes urlCount : Int))
      ((totalBytes : Int) - (i : Int) * (iosChunkSize totalBytes urlCount : Int)) }

/-- The full iOS part plan: getNextChunkIndex walks every url index
0 .. urlCount-1 and each one is passed to uploadChunk exactly once. -/
def iosPlan (totalBytes urlCount : Nat) : List PartRange :=
  (List.range urlCount).map (iosPart totalBytes urlCount)

/-- Claim C1's stated property of the computed plan, over the embedded iOS
planner: exactly urlCount parts; non-final parts of exactly chunkSize at
offsets (partNumber-1)*chunkSize; the final part absorbing the remainder;
consecutive ranges with no gap or overlap, starting at offset 0; nonnegative
sizes; and sizes summing to totalBytes. -/
def iosPlanMatchesClaim (tb n : Nat) : Prop :=
  (iosPlan tb n).length = n ∧
  (∀ i : Nat, i + 1 < n →
    (iosPart tb n i).offset = (i : Int) * (iosChunkSize tb n : Int) ∧
    (iosPart tb n i).size = (iosChunkSize tb n : Int)) ∧
  (0 < n →
    (iosPart tb n (n - 1)).offset = ((n : Int) - 1) * (iosChunkSize tb n : Int) ∧
    (iosPart tb n (n - 1)).size =
      (tb : Int) - ((n : Int) - 1) * (iosChunkSize tb n : Int)) ∧
  (∀ i : Nat, i + 1 < n →
    (iosPart tb n (i + 1)).offset = (iosPart tb n i).offset + (iosPart tb n i).size) ∧
  (0 < n → (iosPart tb n 0).offset = 0) ∧
  (∀ i : Nat, i < n → 0 ≤ (iosPart tb n i).size) ∧
  ((iosPlan tb n).map PartRange.size).sum = (tb : Int)

/-- iOS UploadSession.State. -/
inductive SessState
  | idle
  | uploading
  | paused
  | completed
  | failed
  | cancelled
deriving DecidableEq

/-- iOS UploadSession.pause(): guard state == .uploading, then move to paused. -/
def sessPause (s : SessState) : SessState :=
  if s = SessState.uploading then SessState.paused else s

/-- iOS UploadSession.resume(): guard state == .paused, then move to uploading. -/
def sessResume (s : SessState) : SessState :=
  if s = SessState.paused then SessState.uploading else s

/-- State of the iOS NitroCloudUploader object relevant to pause/resume:
the current upload's session state, if any, and isNetworkAvailable. -/
structure IosUploader where
  current : Option SessState
  netAvailable : Bool

/-- iOS pauseUpload API: calls session.pause() on the current session. -/
def iosApiPause (m : IosUploader) : IosUploader :=
  { m with current := m.current.map sessPause }

/-- iOS resumeUpload API: calls session.resume() on the current session. -/
def iosApiResume (m : IosUploader) : IosUploader :=
  { m with current := m.current.map sessResume }

/-- iOS setupNetworkMonitoring, wasAvailable && !isAvailable branch: pause the
current upload and record the network as unavailable. -/
def iosNetLost (m : IosUploader) : IosUploader :=
  if m.netAvailable then
    { current := m.current.map sessPause, netAvailable := false }
  else m

/-- iOS setupNetworkMonitoring, !wasAvailable && isAvailable branch: resume
the current upload unconditionally (the source keeps no record of why the
session was paused) and record the network as available. -/
def iosNetRestored (m : IosUploader) : IosUploader :=
  if m.netAvailable then m
  else { current := m.current.map sessResume, netAvailable := true }

/-- Outcome of the registry check performed by startUpload. -/
inductive StartOutcome
  | alreadyInProgress
  | started
deriving DecidableEq

/-- Android startUpload registry step: throw IllegalStateException when
activeUploads.containsKey(uploadId), otherwise register the new job
(activeUploads is modelled by its key list). -/
def androidStartUpload (reg : List String) (uid : String) :
    List String × StartOutcome :=
  if uid ∈ reg then (reg, StartOutcome.alreadyInProgress)
  else (reg ++ [uid], StartOutcome.started)

/-- iOS startUpload registry step: the single currentUpload slot rejects any
second upload while one is in flight, whatever its id. -/
def iosStartUpload (current : Option String) (uid : String) :
    Option String × StartOutcome :=
  match current with
  | some existing => (some existing, StartOutcome.alreadyInProgress)
  | none => (some uid, StartOutcome.started)

/-- Result of running the Android uploadPart retry loop for one part: whether
the part succeeded, how many attempts ran, the backoff delays (ms) awaited
between attempts in order, and whether the part number joined failedChunks. -/
structure PartRun where
  succeeded : Bool
  attempts : Nat
  delaysMs : List Nat
  markedFailed : Bool

/-- Android uploadPart while-loop (while retries < MAX_RETRIES), given the
outcome of each attempt (true = HTTP success): a successful attempt returns
true at once; on a failed attempt retries is incremented, then delay(1000 *
retries) runs when retries < MAX_RETRIES, and otherwise the part number is
added to failedChunks and the loop exits returning false.  The fuel argument
starts at MAX_RETRIES - retries, so the fuel = 0 case is the loop condition
failing. -/
def uploadPartLoop (outcome : Nat → Bool) (retries fuel : Nat) : PartRun :=
  if _h0 : fuel = 0 then
    { succeeded := false, attempts := retries, delaysMs := [], markedFailed := false }
  else if outcome retries then
    { succeeded := true, attempts := retries + 1, delaysMs := [], markedFailed := false }
  else if retries + 1 < maxRetries then
    let rest := uploadPartLoop outcome (retries + 1) (fuel - 1)
    { rest with delaysMs := 1000 * (retries + 1) :: rest.delaysMs }
  else
    { succeeded := false, attempts := retries + 1, delaysMs := [], markedFailed := true }
termination_by fuel
decreasing_by omega

/-- Android uploadPart starts its loop with retries = 0. -/
def uploadPartRun (outcome : Nat → Bool) : PartRun :=
  uploadPartLoop outcome 0 maxRetries

/-- Terminal outcome of Android performUpload: either promise resolution with
the sorted etags, or the thrown exception listing the failed part numbers. -/
inductive OverallOutcome
  | completed (etags : List String)
  | failedWith (failedPartNumbers : List Nat)
deriving DecidableEq

/-- failedChunks.sorted(): the 1-based part numbers of the parts whose loop
exhausted its retries, ascending (parts are numbered consecutively from p). -/
def failedPartsFrom : List Bool → Nat → List Nat
  | [], _ => []
  | ok :: rest, p =>
    if ok then failedPartsFrom rest (p + 1)
    else p :: failedPartsFrom rest (p + 1)

/-- The failed part numbers of a session whose parts are numbered 1 .. n. -/
def failedParts (partSucc : List Bool) : List Nat := failedPartsFrom partSucc 1

/-- Android performUpload conclusion: when completedChunks != totalChunks an
exception naming the failed parts is thrown, so the caller receives no etags
at all; otherwise the result carries the etags sorted by part number. -/
def androidOverall (partSucc : List Bool) (etagOf : Nat → String) : OverallOutcome :=
  if failedParts partSucc = [] then
    OverallOutcome.completed ((List.range partSucc.length).map (fun i => etagOf (i + 1)))
  else OverallOutcome.failedWith (failedParts partSucc)

/-- iOS urlSession(_:task:didCompleteWithError:) error branch: the failed
chunk is dropped from activeTasks with no attempt counter and no backoff,
and when no other task remains in flight while the upload is incomplete the
whole session fails at once. -/
def iosChunkFailureStep (st : SessState)
    (activeRemaining completedCount totalCount : Nat) : SessState :=
  if st = SessState.uploading ∨ st = SessState.paused then
    if activeRemaining = 0 ∧ completedCount < totalCount then SessState.failed else st
  else st

/-- iOS startUpload + UploadSession.init validation sequence: empty id, empty
path, empty url array, missing file, then the (urlCount - 1) * 5 MiB size
floor.  No fileSize = 0 check exists on iOS. -/
def iosValidate (uploadId filePath : String) (urlCount : Nat)
    (fileExists : Bool) (fileSize : Nat) : Option String :=
  if uploadId = "" then some "Upload ID cannot be empty"
  else if filePath = "" then some "File path cannot be empty"
  else if urlCount = 0 then some "Upload URLs cannot be empty"
  else if !fileExists then some "File not found"
  else if fileSize < iosRequiredMinimumSize urlCount then some "File too small for chunk count"
  else none

/-- Android startUpload validation sequence: missing file, unreadable file,
empty file.  No id/url-array/minimum-size check exists on Android. -/
def androidValidate (fileExists canRead : Bool) (fileSize : Nat) : Option String :=
  if !fileExists then some "File not found"
  else if !canRead then some "Cannot read file"
  else if fileSize = 0 then some "File is empty"
  else none

/-- Android: maxParallel?.toInt()?.coerceIn(1, 10) ?: 3 (the Double-to-Int
truncation is modelled by taking the already-truncated integer). -/
def androidEffectiveParallel (maxParallel : Option Int) : Int :=
  match maxParallel with
  | some v => if v < 1 then 1 else if 10 < v then 10 else v
  | none => 3

/-- iOS: let parallel = Int(maxParallel ?? 3), with no clamping anywhere. -/
def iosEffectiveParallel (maxParallel : Option Int) : Int :=
  match maxParallel with
  | some v => v
  | none => 3

/-- Android registry component: the key sets of activeUploads and
uploadStates. -/
structure AndroidRegistry where
  active : List String
  states : List String

/-- Android cleanup(uploadId) on one map: ConcurrentHashMap.remove(id). -/
def removeKey (l : List String) (uid : String) : List String :=
  l.filter (fun x => x ≠ uid)

/-- Android cancelUpload: cancels the job when present, emits, runs
cleanup(uploadId) on both maps and always resolves ok (the Bool). -/
def androidCancel (s : AndroidRegistry) (uid : String) : AndroidRegistry × Bool :=
  ({ active := removeKey s.active uid, states := removeKey s.states uid }, true)

/-- Android getUploadState: some state when uploadStates[uploadId] exists,
otherwise the promise is rejected with a not-found error (none). -/
def androidGetUploadState (s : AndroidRegistry) (uid : String) : Option Unit :=
  if uid ∈ s.states then some () else none

/-- iOS cancelUpload: returns ok immediately unless the single currentUpload
matches the id, in which case it is cancelled and the slot cleared; the Bool
records that the promise always resolves ok. -/
def iosCancel (current : Option String) (uid : String) : Option String × Bool :=
  match current with
  | some cid => if cid = uid then (none, true) else (some cid, true)
  | none => (none, true)

/-- iOS getUploadState: found only when the current upload carries this id,
otherwise the call throws a not-found error (none). -/
def iosGetUploadState (current : Option String) (uid : String) : Option Unit :=
  match current with
  | some cid => if cid = uid then some () else none
  | none => none

/-- Android uploadPart success path: state.partETags[part.partNumber] = etag,
an insert-or-replace into the part-number-keyed map, modelled as a function
update. -/
def insertETag (m : Nat → Option String) (pe : Nat × String) : Nat → Option String :=
  fun k => if k = pe.fst then some pe.snd else m k

/-- The partETags map after the parts complete in the given order. -/
def collectETags (completions : List (Nat × String)) : Nat → Option String :=
  completions.foldl insertETag (fun _ => none)

/-- partETags.toSortedMap().values: when the key set is exactly 1 .. total,
the ascending key enumeration reads keys 1, 2, ..., total in order. -/
def resultETags (m : Nat → Option String) (total : Nat) : List String :=
  (List.range total).map (fun k => (m (k + 1)).getD "")

/-- The double-quote character, written by code point to keep the source
free of quote literals. -/
def quoteChar : Char := Char.ofNat 34

/-- ASCII lower-casing of one character; HTTP header names are ASCII. -/
def asciiLower (c : Char) : Char :=
  if 65 ≤ c.toNat ∧ c.toNat ≤ 90 then Char.ofNat (c.toNat + 32) else c

/-- Case-insensitive header-name comparison, as performed by OkHttp's
response.header(name). -/
def lowerEq (a b : String) : Bool :=
  a.toList.map asciiLower == b.toList.map asciiLower

/-- OkHttp response.header(name): value of the first header whose name
matches case-insensitively. -/
def findHeader (headers : List (String × String)) (name : String) : Option String :=
  (headers.find? (fun h => lowerEq h.fst name)).map Prod.snd

/-- Kotlin String.trim(ch): strip every leading and trailing occurrence of
the character. -/
def trimChar (s : String) (ch : Char) : String :=
  String.mk (((s.toList.dropWhile (fun c => c = ch)).reverse.dropWhile
    (fun c => c = ch)).reverse)

/-- Android uploadPart ETag extraction:
response.header(ETag)?.trim(quote) ?: response.header(etag)?.trim(quote) ?: empty. -/
def androidExtractETag (headers : List (String × String)) : String :=
  match findHeader headers "ETag" with
  | some v => trimChar v quoteChar
  | none =>
    match findHeader headers "etag" with
    | some v => trimChar v quoteChar
    | none => ""

/-- Outcome of one Android part attempt after the PUT response arrives. -/
inductive AttemptOutcome
  | success (etag : String)
  | failure
deriving DecidableEq

/-- Android uploadPart after httpClient executes: response.isSuccessful is
status in 200..299; on success the (possibly empty) extracted ETag is
recorded and the attempt reports success whether or not the header exists;
otherwise an exception makes the attempt a retryable failure. -/
def androidAttempt (status : Nat) (headers : List (String × String)) : AttemptOutcome :=
  if 200 ≤ status ∧ status ≤ 299 then
    AttemptOutcome.success (androidExtractETag headers)
  else AttemptOutcome.failure

/-- iOS exact-key dictionary lookup: response.allHeaderFields[name] as? String. -/
def findHeaderExact (headers : List (String × String)) (name : String) : Option String :=
  (headers.find? (fun h => h.fst == name)).map Prod.snd

/-- iOS ETag extraction: allHeaderFields under the exact keys Etag then ETag,
defaulting to the empty string, with no quote stripping. -/
def iosExtractETag (headers : List (String × String)) : String :=
  match findHeaderExact headers "Etag" with
  | some v => v
  | none =>
    match findHeaderExact headers "ETag" with
    | some v => v
    | none => ""

/-- addListener on both platforms: append the callback to the listener list
for eventType, creating the list when absent (the table is modelled as a
total function from event type to listener list). -/
def addListenerModel {α : Type} (ls : String → List α) (t : String) (cb : α) :
    String → List α :=
  fun k => if k = t then ls k ++ [cb] else ls k

/-- removeListener on both platforms: drop every listener registered under
the given eventType. -/
def removeListenerModel {α : Type} (ls : String → List α) (t : String) :
    String → List α :=
  fun k => if k = t then [] else ls k

/-- emitEvent delivery on both platforms: the listeners registered under the
event's own type, then the listeners registered under the string all. -/
def deliveredTo {α : Type} (ls : String → List α) (t : String) : List α :=
  ls t ++ ls "all"

/-- Rewriting ceilDiv at a positive divisor into a plain floor division. -/
theorem ceilDiv_succ (tb m : Nat) : ceilDiv tb (m + 1) = (tb + m) / (m + 1) := by
  have h : tb + (m + 1) - 1 = tb + m := by omega
  unfold ceilDiv
  rw [h]

/-- Upper bound: (m+1) * ceil(tb / (m+1)) ≤ tb + m. -/
theorem mul_ceilDiv_le (tb m : Nat) : (m + 1) * ceilDiv tb (m + 1) ≤ tb + m := by
  rw [ceilDiv_succ, Nat.mul_comm]
  exact Nat.div_mul_le_self (tb + m) (m + 1)

/-- Lower bound: tb ≤ (m+1) * ceil(tb / (m+1)). -/
theorem le_mul_ceilDiv (tb m : Nat) : tb ≤ (m + 1) * ceilDiv tb (m + 1) := by
  rw [ceilDiv_succ]
  have hd := Nat.div_add_mod (tb + m) (m + 1)
  have hr : (tb + m) % (m + 1) < m + 1 := Nat.mod_lt _ (Nat.succ_pos m)
  generalize hB : (m + 1) * ((tb + m) / (m + 1)) = B at hd ⊢
  generalize hR : (tb + m) % (m + 1) = r at hd hr
  omega

/-- The two bounds that make the iOS fixed-chunk plan a partition: with the
validation precondition and at most 5 MiB + 1 urls, the first m chunks of
size chunkSize fit inside the file and the last chunk has room left over of
at most one chunkSize. -/
theorem ios_chunk_bounds (tb m : Nat)
    (hvalid : iosRequiredMinimumSize (m + 1) ≤ tb) (hm : m ≤ minChunkSize) :
    m * iosChunkSize tb (m + 1) ≤ tb ∧ tb ≤ (m + 1) * iosChunkSize tb (m + 1) := by
  have hub : (m + 1) * ceilDiv tb (m + 1) ≤ tb + m := mul_ceilDiv_le tb m
  have hlb : tb ≤ (m + 1) * ceilDiv tb (m + 1) := le_mul_ceilDiv tb m
  unfold iosChunkSize
  rcases le_total (ceilDiv tb (m + 1)) minChunkSize with hcase | hcase
  · rw [max_eq_right hcase]
    constructor
    · have hreq : iosRequiredMinimumSize (m + 1) = m * minChunkSize := by
        unfold iosRequiredMinimumSize
        simp
      rw [← hreq]
      exact hvalid
    · exact le_trans hlb (Nat.mul_le_mul_left _ hcase)
  · rw [max_eq_left hcase]
    refine ⟨?_, hlb⟩
    have ham : m ≤ ceilDiv tb (m + 1) := le_trans hm hcase
    have hub2 : m * ceilDiv tb (m + 1) + ceilDiv tb (m + 1) ≤ tb + m := by
      calc m * ceilDiv tb (m + 1) + ceilDiv tb (m + 1)
          = (m + 1) * ceilDiv tb (m + 1) := by ring
        _ ≤ tb + m := hub
    have h2 : m * ceilDiv tb (m + 1) + m ≤ tb + m :=
      le_trans (Nat.add_le_add_left ham _) hub2
    exact Nat.le_of_add_le_add_right h2

/-- Size of a non-final iOS chunk when the next chunk boundary still fits
inside the file. -/
theorem iosPart_size_eq (tb n i : Nat) (h : (i + 1) * iosChunkSize tb n ≤ tb) :
    (iosPart tb n i).size = (iosChunkSize tb n : Int) := by
  simp only [iosPart]
  apply min_eq_left
  have h' : ((i + 1) * iosChunkSize tb n : Int) ≤ (tb : Int) := by exact_mod_cast h
  push_cast at h'
  linarith

/-- Summing a function that is constant on List.range. -/
theorem sum_map_const_on_range (f : Nat → Int) (k : Nat) (c : Int)
    (h : ∀ i, i < k → f i = c) : ((List.range k).map f).sum = (k : Int) * c := by
  induction k with
  | zero => simp
  | succ k ih =>
    rw [List.range_succ, List.map_append, List.sum_append]
    rw [ih (fun i hi => h i (by omega))]
    simp [h k (by omega)]
    ring

/-- C1 (amended): in the iOS implementation (the Android one instead divides
the file proportionally at offsets floor(totalBytes * i / urlCount)), for
every totalBytes > 0 and every urlCount with 1 ≤ urlCount ≤ 5 MiB + 1 that
passes UploadSession.init's size validation, the computed plan consists of
exactly urlCount parts with chunkSize = max(5 MiB, ceil(totalBytes /
urlCount)): parts 1 .. urlCount-1 of size chunkSize at offsets
(partNumber-1) * chunkSize, a final part absorbing the remainder, ranges
contiguous from 0 with nonnegative sizes, and sizes summing to totalBytes. -/
theorem c1_partPlan_amended (tb n : Nat) (_htb : 0 < tb) (hn : 0 < n)
    (hsmall : n ≤ minChunkSize + 1) (hvalid : iosValidSize tb n = true) :
    iosPlanMatchesClaim tb n := by
  obtain ⟨m, rfl⟩ : ∃ m, n = m + 1 := ⟨n - 1, by omega⟩
  have hvalid' : iosRequiredMinimumSize (m + 1) ≤ tb := by
    simpa [iosValidSize] using hvalid
  have hm : m ≤ minChunkSize := by omega
  obtain ⟨key1, key2⟩ := ios_chunk_bounds tb m hvalid' hm
  have hsize : ∀ i : Nat, i + 1 < m + 1 →
      (iosPart tb (m + 1) i).size = (iosChunkSize tb (m + 1) : Int) := by
    intro i hi
    apply iosPart_size_eq
    calc (i + 1) * iosChunkSize tb (m + 1)
        ≤ m * iosChunkSize tb (m + 1) := Nat.mul_le_mul_right _ (by omega)
      _ ≤ tb := key1
  have hlastsize : (iosPart tb (m + 1) m).size
      = (tb : Int) - (m : Int) * (iosChunkSize tb (m + 1) : Int) := by
    simp only [iosPart]
    apply min_eq_right
    have h2 : ((tb : Nat) : Int) ≤ (((m + 1) * iosChunkSize tb (m + 1) : Nat) : Int) := by
      exact_mod_cast key2
    push_cast at h2
    linarith
  have hnn : ∀ i : Nat, i < m + 1 → 0 ≤ (iosPart tb (m + 1) i).size := by
    intro i hi
    simp only [iosPart]
    apply le_min
    · exact Int.natCast_nonneg _
    · have h1 : i * iosChunkSize tb (m + 1) ≤ tb := by
        calc i * iosChunkSize tb (m + 1)
            ≤ m * iosChunkSize tb (m + 1) := Nat.mul_le_mul_right _ (by omega)
          _ ≤ tb := key1
      have h1' : ((i * iosChunkSize tb (m + 1) : Nat) : Int) ≤ ((tb : Nat) : Int) := by
        exact_mod_cast h1
      push_cast at h1'
      linarith
  refine ⟨?_, ?_, ?_, ?_, ?_, hnn, ?_⟩
  · simp [iosPlan]
  · intro i hi
    exact ⟨rfl, hsize i hi⟩
  · intro _
    have hm1 : m + 1 - 1 = m := rfl
    rw [hm1]
    constructor
    · simp only [iosPart]
      push_cast
      ring
    · rw [hlastsize]
      push_cast
      ring
  · intro i hi
    rw [hsize i hi]
    simp only [iosPart]
    push_cast
    ring
  · intro _
    simp [iosPart]
  · have hmap : ((iosPlan tb (m + 1)).map PartRange.size)
        = (List.range (m + 1)).map (fun i => (iosPart tb (m + 1) i).size) := by
      simp [iosPlan, List.map_map]
    rw [hmap, List.range_succ, List.map_append, List.sum_append]
    rw [sum_map_const_on_range _ m ((iosChunkSize tb (m + 1) : Nat) : Int)
        (fun i hi => hsize i (by omega))]
    simp only [List.map_cons, List.map_nil, List.sum_cons, List.sum_nil, hlastsize]
    ring

/-- C1 witness: the 15 MiB / 3 urls example from the spec satisfies the
amended theorem's hypotheses and receives the claimed plan. -/
theorem c1_partPlan_witness :
    iosValidSize 15728640 3 = true ∧ iosPlanMatchesClaim 15728640 3 :=
  ⟨by decide, c1_partPlan_amended 15728640 3 (by decide) (by decide) (by decide) (by decide)⟩

/-- C1 counterexample: the validated input totalBytes = 27487806423041 with
urlCount = 5242883 (chunkSize is then ceil = 5242881) makes part 5242882, a
non-final part, smaller than chunkSize: (urlCount-1) * chunkSize overshoots
the file, so the plan as claimed (every non-final part of exactly chunkSize,
ranges partitioning the file) is false even though UploadSession.init's
validation accepts the input. -/
theorem c1_partPlan_counterexample :
    iosValidSize 27487806423041 5242883 = true ∧
    ¬ iosPlanMatchesClaim 27487806423041 5242883 := by
  constructor
  · decide
  · intro h
    have h2 := (h.2.1 5242881 (by decide)).2
    have h3 : (iosPart 27487806423041 5242883 5242881).size
        ≠ ((iosChunkSize 27487806423041 5242883 : Nat) : Int) := by decide
    exact h3 h2

/-- C2: evidence for the code bug.  A session paused through the explicit
pauseUpload API (a user pause) is driven straight back to uploading by the
connectivity-restored handler: the source records no pauseReason, and
iosNetRestored calls resume() on the current session unconditionally, so a
network restore does override a user-initiated pause, contrary to the claim
that only the explicit resume API may resume it. -/
theorem c2_networkRestore_overrides_userPause :
    (iosNetRestored (iosNetLost (iosApiPause
      { current := some SessState.uploading, netAvailable := true }))).current
      = some SessState.uploading := rfl

/-- C3 (amended): on Android, startUpload with an already-registered id fails
with AlreadyInProgress and leaves the registry (hence the in-progress upload)
untouched; with an unregistered id it registers the new session while every
previously registered id stays registered, so uploads with distinct ids run
concurrently.  On iOS (see the counterexample) any second upload is rejected
while one is in flight, whatever its id. -/
theorem c3_registry_amended (reg : List String) (uid : String) :
    (uid ∈ reg → androidStartUpload reg uid = (reg, StartOutcome.alreadyInProgress)) ∧
    (uid ∉ reg →
      (androidStartUpload reg uid).snd = StartOutcome.started ∧
      uid ∈ (androidStartUpload reg uid).fst ∧
      ∀ x ∈ reg, x ∈ (androidStartUpload reg uid).fst) := by
  constructor
  · intro h
    simp [androidStartUpload, h]
  · intro h
    refine ⟨?_, ?_, ?_⟩
    · simp [androidStartUpload, h]
    · simp [androidStartUpload, h]
    · intro x hx
      simp [androidStartUpload, h]
      exact Or.inl hx

/-- C3 witness: with upload a registered, starting a again is rejected with
the registry unchanged, while starting b succeeds and both ids end up
registered. -/
theorem c3_registry_witness :
    androidStartUpload ["a"] "a" = (["a"], StartOutcome.alreadyInProgress) ∧
    (androidStartUpload ["a"] "b").snd = StartOutcome.started ∧
    "b" ∈ (androidStartUpload ["a"] "b").fst ∧
    "a" ∈ (androidStartUpload ["a"] "b").fst := by
  have h1 := (c3_registry_amended ["a"] "a").1 (by decide)
  have h2 := (c3_registry_amended ["a"] "b").2 (by decide)
  exact ⟨h1, h2.1, h2.2.1, h2.2.2 "a" (by decide)⟩

/-- C3 counterexample: on iOS, a startUpload call whose id b is not the
registered one still fails with AlreadyInProgress and registers nothing,
falsifying the claim that every call with an unregistered id constructs and
registers a new session (distinct ids cannot run concurrently on iOS). -/
theorem c3_registry_counterexample :
    iosStartUpload (some "a") "b" = (some "a", StartOutcome.alreadyInProgress) := rfl

/-- A part list containing a failure yields a nonempty failed-part list. -/
theorem failedPartsFrom_ne_nil (ps : List Bool) (hmem : false ∈ ps) :
    ∀ p, failedPartsFrom ps p ≠ [] := by
  induction ps with
  | nil => cases hmem
  | cons b rest ih =>
    intro p
    cases b with
    | false => simp [failedPartsFrom]
    | true =>
      have hrest : false ∈ rest := by
        rcases List.mem_cons.mp hmem with h | h
        · cases h
        · exact h
      simp [failedPartsFrom]
      exact ih hrest (p + 1)

/-- C4 (amended): the Android implementation gives each part a budget of
MAX_RETRIES = 3 total attempts with backoff delay 1000 * attemptNumber ms
between attempts: two transient failures followed by a success yield part
success after delays of 1 s and 2 s; three failures mark the part
permanently failed; and whenever any part fails, performUpload throws an
exception listing the failed part numbers, so the etags of the other,
successful parts are discarded and no partial result is returned.  The iOS
implementation has no retry loop at all (see the counterexample). -/
theorem c4_retry_amended :
    (∀ oc : Nat → Bool, (uploadPartRun oc).attempts ≤ maxRetries) ∧
    (∀ oc : Nat → Bool, oc 0 = false → oc 1 = false → oc 2 = true →
      uploadPartRun oc =
        { succeeded := true, attempts := 3, delaysMs := [1000, 2000], markedFailed := false }) ∧
    (∀ oc : Nat → Bool, oc 0 = false → oc 1 = false → oc 2 = false →
      uploadPartRun oc =
        { succeeded := false, attempts := 3, delaysMs := [1000, 2000], markedFailed := true }) ∧
    (∀ (ps : List Bool) (etagOf : Nat → String), false ∈ ps →
      androidOverall ps etagOf = OverallOutcome.failedWith (failedParts ps) ∧
      failedParts ps ≠ []) := by
  refine ⟨?_, ?_, ?_, ?_⟩
  · intro oc
    cases h0 : oc 0 <;> cases h1 : oc 1 <;> cases h2 : oc 2 <;>
      simp [uploadPartRun, uploadPartLoop, maxRetries, h0, h1, h2]
  · intro oc h0 h1 h2
    simp [uploadPartRun, uploadPartLoop, maxRetries, h0, h1, h2]
  · intro oc h0 h1 h2
    simp [uploadPartRun, uploadPartLoop, maxRetries, h0, h1, h2]
  · intro ps etagOf hmem
    have hne : failedParts ps ≠ [] := failedPartsFrom_ne_nil ps hmem 1
    exact ⟨by simp [androidOverall, hne], hne⟩

/-- C4 witness: a part failing on attempts one and two and succeeding on the
third ends in success with delays 1 s then 2 s, and an upload whose second
part failed is reported as failed with part number 2 and no etags. -/
theorem c4_retry_witness :
    uploadPartRun (fun k => decide (2 ≤ k)) =
      { succeeded := true, attempts := 3, delaysMs := [1000, 2000], markedFailed := false } ∧
    androidOverall [true, false, true] (fun _ => "e") = OverallOutcome.failedWith [2] := by
  constructor
  · exact c4_retry_amended.2.1 (fun k => decide (2 ≤ k)) rfl rfl rfl
  · have h := c4_retry_amended.2.2.2 [true, false, true] (fun _ => "e") (by decide)
    simpa [failedParts, failedPartsFrom] using h.1

/-- C4 counterexample: on iOS a part gets a single attempt with no backoff:
with the failing chunk the last one in flight (2 of 3 chunks done), the
didCompleteWithError handler fails the whole session on that part's very
first failed attempt, so the claimed 3-attempt budget with 1 s / 2 s backoff
is false for the iOS implementation. -/
theorem c4_retry_counterexample :
    iosChunkFailureStep SessState.uploading 0 2 3 = SessState.failed := rfl

/-- C5 (amended): each platform performs only part of the claimed validation,
immediately and before any upload work: iOS rejects exactly an empty id, an
empty path, an empty url array, a missing file, or fileSize below
(urlCount - 1) * 5 MiB — which rejects an empty file only when urlCount ≥ 2 —
while Android rejects exactly a missing, unreadable or empty file, with no
id, url-array or minimum-size check. -/
theorem c5_validation_amended (uid path : String) (urlCount : Nat)
    (fileExists canRead : Bool) (fileSize : Nat) :
    (iosValidate uid path urlCount fileExists fileSize = none ↔
      uid ≠ "" ∧ path ≠ "" ∧ urlCount ≠ 0 ∧ fileExists = true ∧
      iosRequiredMinimumSize urlCount ≤ fileSize) ∧
    (androidValidate fileExists canRead fileSize = none ↔
      fileExists = true ∧ canRead = true ∧ fileSize ≠ 0) := by
  constructor
  · unfold iosValidate
    split_ifs <;> simp_all
  · unfold androidValidate
    split_ifs <;> simp_all

/-- C5 witness: a fully valid iOS input (15 MiB file, 3 urls) and a fully
valid Android input pass validation. -/
theorem c5_validation_witness :
    iosValidate "u" "f" 3 true 15728640 = none ∧
    androidValidate true true 15728640 = none := by
  have h := c5_validation_amended "u" "f" 3 true true 15728640
  exact ⟨h.1.mpr (by decide), h.2.mpr (by decide)⟩

/-- C5 counterexample: iOS accepts an empty file (fileSize = 0) when a single
upload url is given, and Android accepts an 8 MiB file regardless of the url
count (it has no minimum-size precondition at all), although the claim
requires an immediate ValidationError in both situations. -/
theorem c5_validation_counterexample :
    iosValidate "u" "f" 1 true 0 = none ∧
    androidValidate true true (8 * 1024 * 1024) = none := by
  constructor <;> rfl

/-- C6 (amended): the Android implementation clamps maxParallel into [1, 10]
— 0 becomes 1, 25 becomes 10, values already in range pass through, and an
absent value defaults to 3 — while the iOS implementation uses the given
value with no clamping (default 3). -/
theorem c6_parallel_amended :
    (∀ v : Int, 1 ≤ androidEffectiveParallel (some v) ∧
      androidEffectiveParallel (some v) ≤ 10) ∧
    androidEffectiveParallel (some 0) = 1 ∧
    androidEffectiveParallel (some 25) = 10 ∧
    androidEffectiveParallel none = 3 ∧
    (∀ v : Int, 1 ≤ v → v ≤ 10 → androidEffectiveParallel (some v) = v) ∧
    (∀ v : Int, iosEffectiveParallel (some v) = v) ∧
    iosEffectiveParallel none = 3 := by
  refine ⟨?_, by decide, by decide, rfl, ?_, fun v => rfl, rfl⟩
  · intro v
    simp only [androidEffectiveParallel]
    constructor <;> split_ifs <;> omega
  · intro v h1 h10
    simp only [androidEffectiveParallel]
    split_ifs <;> omega

/-- C6 witness: an in-range value of 5 passes through the Android clamp. -/
theorem c6_parallel_witness :
    1 ≤ (5 : Int) ∧ (5 : Int) ≤ 10 ∧ androidEffectiveParallel (some 5) = 5 :=
  ⟨by decide, by decide, c6_parallel_amended.2.2.2.2.1 5 (by decide) (by decide)⟩

/-- C6 counterexample: iOS does not clamp: an input of 25 stays 25 (not 10)
and an input of 0 stays 0 (not 1), falsifying the claim for the iOS
implementation. -/
theorem c6_parallel_counterexample :
    iosEffectiveParallel (some 25) ≠ 10 ∧ iosEffectiveParallel (some 0) ≠ 1 := by
  exact ⟨by decide, by decide⟩

/-- C7 (confirmed): on both platforms cancelUpload resolves ok even when the
id has no upload, cancelling an already-cancelled id again is a no-op on the
registry and still resolves ok, and after a cancel the registry entry is
gone so getUploadState on that id reports not found. -/
theorem c7_cancel_confirmed :
    (∀ (s : AndroidRegistry) (uid : String), (androidCancel s uid).snd = true) ∧
    (∀ (s : AndroidRegistry) (uid : String),
      androidCancel (androidCancel s uid).fst uid = androidCancel s uid) ∧
    (∀ (s : AndroidRegistry) (uid : String),
      androidGetUploadState (androidCancel s uid).fst uid = none) ∧
    (∀ (cur : Option String) (uid : String), (iosCancel cur uid).snd = true) ∧
    (∀ (cur : Option String) (uid : String),
      iosCancel (iosCancel cur uid).fst uid = iosCancel cur uid) ∧
    (∀ (cur : Option String) (uid : String),
      iosGetUploadState (iosCancel cur uid).fst uid = none) := by
  refine ⟨fun s uid => rfl, ?_, ?_, ?_, ?_, ?_⟩
  · intro s uid
    simp [androidCancel, removeKey, List.filter_filter]
  · intro s uid
    simp [androidCancel, androidGetUploadState, removeKey, List.mem_filter]
  · intro cur uid
    cases cur with
    | none => rfl
    | some cid =>
      by_cases h : cid = uid <;> simp [iosCancel, h]
  · intro cur uid
    cases cur with
    | none => rfl
    | some cid =>
      by_cases h : cid = uid <;> simp [iosCancel, h]
  · intro cur uid
    cases cur with
    | none => rfl
    | some cid =>
      by_cases h : cid = uid <;> simp [iosCancel, iosGetUploadState, h]

/-- Folding completions whose keys avoid p leaves the map unchanged at p. -/
theorem foldl_insertETag_not_mem (l : List (Nat × String))
    (acc : Nat → Option String) (p : Nat) (hp : p ∉ l.map Prod.fst) :
    l.foldl insertETag acc p = acc p := by
  induction l generalizing acc with
  | nil => rfl
  | cons x xs ih =>
    have hx : p ≠ x.fst ∧ p ∉ xs.map Prod.fst := by
      simp only [List.map_cons, List.mem_cons, not_or] at hp
      exact hp
    simp only [List.foldl_cons]
    rw [ih _ hx.2]
    simp [insertETag, hx.1]

/-- With duplicate-free part numbers, the folded map returns each part's
etag, whatever the completion order. -/
theorem foldl_insertETag_mem (l : List (Nat × String))
    (acc : Nat → Option String) (p : Nat) (e : String)
    (hmem : (p, e) ∈ l) (hnd : (l.map Prod.fst).Nodup) :
    l.foldl insertETag acc p = some e := by
  induction l generalizing acc with
  | nil => cases hmem
  | cons x xs ih =>
    rcases List.mem_cons.mp hmem with heq | htail
    · have hn : p ∉ xs.map Prod.fst := by
        rw [← heq] at hnd
        simp only [List.map_cons, List.nodup_cons] at hnd
        exact hnd.1
      simp only [List.foldl_cons]
      rw [foldl_insertETag_not_mem xs _ p hn, ← heq]
      simp [insertETag]
    · have hnd' : (xs.map Prod.fst).Nodup := by
        simp only [List.map_cons, List.nodup_cons] at hnd
        exact hnd.2
      simp only [List.foldl_cons]
      exact ih _ htail hnd'

/-- C8 (confirmed): for a successfully completed upload — each part number
1 .. total completing exactly once, in any order — the result etag list read
from partETags.toSortedMap().values has length total and carries at position
p - 1 exactly the etag of part p: the sequence is ordered by partNumber
ascending with position k belonging to part k + 1. -/
theorem c8_etagOrder_confirmed (completions : List (Nat × String))
    (total p : Nat) (e : String) (hmem : (p, e) ∈ completions)
    (hnd : (completions.map Prod.fst).Nodup) (hp : 1 ≤ p) (hpt : p ≤ total) :
    (resultETags (collectETags completions) total).length = total ∧
    (resultETags (collectETags completions) total)[p - 1]? = some e := by
  have hval : collectETags completions p = some e :=
    foldl_insertETag_mem completions _ p e hmem hnd
  constructor
  · simp [resultETags]
  · obtain ⟨q, rfl⟩ : ∃ q, p = q + 1 := ⟨p - 1, by omega⟩
    have hq : q < total := by omega
    simp only [resultETags, List.getElem?_map]
    rw [List.getElem?_range (by omega : q + 1 - 1 < total)]
    simp [hval]

/-- C8 witness: parts completing out of order (2 before 1) still produce the
etag list ordered by part number. -/
theorem c8_etagOrder_witness :
    (resultETags (collectETags [(2, "b"), (1, "a")]) 2).length = 2 ∧
    (resultETags (collectETags [(2, "b"), (1, "a")]) 2)[0]? = some "a" := by
  have h := c8_etagOrder_confirmed [(2, "b"), (1, "a")] 2 1 "a"
    (by decide) (by decide) (by decide) (by decide)
  simpa using h

/-- C9 (amended): on 2xx the Android implementation reports success with the
ETag found by case-insensitive name lookup and surrounding quote characters
stripped, and the empty string — still a success — when no such header
exists; the iOS implementation also never fails for a missing ETag but looks
the header up under the two exact spellings Etag and ETag only and performs
no quote stripping (see the counterexample). -/
theorem c9_etag_amended (status : Nat) (hs : List (String × String))
    (nm v : String) (h2xx : 200 ≤ status ∧ status ≤ 299)
    (hnm : lowerEq nm "ETag" = true) :
    androidAttempt status ((nm, v) :: hs) =
      AttemptOutcome.success (trimChar v quoteChar) ∧
    androidAttempt status [] = AttemptOutcome.success "" ∧
    iosExtractETag [] = "" := by
  refine ⟨?_, ?_, rfl⟩
  · unfold androidAttempt
    rw [if_pos h2xx]
    unfold androidExtractETag findHeader
    simp [List.find?, hnm]
  · unfold androidAttempt
    rw [if_pos h2xx]
    rfl

/-- C9 witness: a 200 response whose header is spelled etag in lowercase and
whose value is a quoted string succeeds with the quotes stripped on Android,
and an absent header still succeeds with the empty string. -/
theorem c9_etag_witness :
    lowerEq "etag" "ETag" = true ∧
    androidAttempt 200 [("etag", "\"abc\"")] = AttemptOutcome.success "abc" ∧
    androidAttempt 200 [] = AttemptOutcome.success "" := by
  have h := c9_etag_amended 200 [] "etag" "\"abc\"" (by decide) (by decide)
  refine ⟨by decide, ?_, h.2.1⟩
  have h1 := h.1
  rw [show trimChar "\"abc\"" quoteChar = "abc" from by decide] at h1
  exact h1

/-- C9 counterexample: for a 2xx response carrying ETag with a quoted value,
iOS reports the value with its surrounding quotes kept, not the stripped
value the claim requires; and a header spelled etag in lowercase is missed
entirely by the exact-key lookup, so the reported etag is empty although the
header is present. -/
theorem c9_etag_counterexample :
    iosExtractETag [("ETag", "\"abc\"")] = "\"abc\"" ∧
    iosExtractETag [("ETag", "\"abc\"")] ≠ "abc" ∧
    iosExtractETag [("etag", "x")] = "" := by
  exact ⟨rfl, by decide, rfl⟩

/-- C10 (confirmed): addListener appends rather than replaces, so several
listeners may sit under one type and lists under other types are untouched;
an emitted event of type t is delivered to every listener under t and then
to every listener under all; and removeListener empties exactly the given
type's list, leaving every other type (such as all) unaffected. -/
theorem c10_listeners_confirmed {α : Type} (ls : String → List α)
    (t u : String) (cb : α) (hne : u ≠ t) :
    addListenerModel ls t cb t = ls t ++ [cb] ∧
    addListenerModel ls t cb u = ls u ∧
    deliveredTo ls t = ls t ++ ls "all" ∧
    (∀ c ∈ ls t, c ∈ deliveredTo ls t) ∧
    (∀ c ∈ ls "all", c ∈ deliveredTo ls t) ∧
    removeListenerModel ls t t = [] ∧
    removeListenerModel ls t u = ls u := by
  refine ⟨by simp [addListenerModel], by simp [addListenerModel, hne], rfl,
    ?_, ?_, by simp [removeListenerModel], by simp [removeListenerModel, hne]⟩
  · intro c hc
    simp [deliveredTo, hc]
  · intro c hc
    simp [deliveredTo, hc]

/-- C10 witness: registering a listener under chunk-completed appends it
there and leaves upload-progress untouched. -/
theorem c10_listeners_witness :
    addListenerModel (fun _ => ([] : List Nat)) "chunk-completed" 7 "chunk-completed" = [7] ∧
    addListenerModel (fun _ => ([] : List Nat)) "chunk-completed" 7 "upload-progress" = [] := by
  have h := c10_listeners_confirmed (fun _ => ([] : List Nat))
    "chunk-completed" "upload-progress" 7 (by decide)
  exact ⟨by simpa using h.1, h.2.1⟩
